import Mathlib

/-!
# Verification of the `next-runtime-env` environment resolver

Shallow embedding of the runtime environment-variable resolver from
`src/index.ts` (the library: `getCurrentEnvironment`, `resolveRuntimeEnv`,
`patchProcessEnv`) and `server.js` (the bootstrap's in-place resolver with
the NextAuth derived-key pass).

A process environment is modelled as a partial map `String → Option String`
(`none` = variable absent).  JavaScript truthiness on `string | undefined`
is: `undefined` and `""` are falsy, every other string is truthy.
Environment tables and `vars` objects are modelled as association lists in
insertion order (JS object iteration order for string keys).
-/

/-- A process environment: `none` means the variable is absent. -/
def Env : Type := String → Option String

/-- Assignment `env[k] = v` as a functional update (JS property assignment). -/
def setVar (e : Env) (k v : String) : Env :=
  fun k' => if k' = k then some v else e k'

/-- JS truthiness of a `string | undefined` value: absent and `""` are falsy. -/
def truthyB (v : Option String) : Bool :=
  match v with
  | none => false
  | some s => !(s == "")

/-- JS `a || b` where `a : string | undefined` and `b : string`. -/
def orElseStr (a : Option String) (b : String) : String :=
  match a with
  | none => b
  | some s => if s = "" then b else s

/-- Model of `EnvironmentConfig` from `src/index.ts`: per-environment variable
overrides plus an optional description. `vars` is an association list in
object-insertion order. -/
structure EnvironmentConfig where
  vars : List (String × String)
  description : Option String

/-- Lookup `environments[name]` (JS object property access). -/
def lookupEnv (t : List (String × EnvironmentConfig)) (name : String) :
    Option EnvironmentConfig :=
  (t.find? (fun p => p.1 = name)).map (fun p => p.2)

/-- Model of `DEFAULT_ENVIRONMENTS` from `src/index.ts`: four named environments,
all with empty `vars`. -/
def DEFAULT_ENVIRONMENTS : List (String × EnvironmentConfig) :=
  [("production", ⟨[], some "Production environment"⟩),
   ("development", ⟨[], some "Development environment"⟩),
   ("staging", ⟨[], some "Staging environment"⟩),
   ("local", ⟨[], some "Local development"⟩)]

/-- Model of `RuntimeEnvConfig` from `src/index.ts`.  Optional fields model the `?`
properties; defaults are applied by destructuring inside `resolveRuntimeEnv`.
The validator models `validate`: `none` = callback returns normally,
`some e` = callback throws the condition `e` (of error type `ε`). -/
structure RuntimeEnvConfig (ε : Type) where
  environments : Option (List (String × EnvironmentConfig))
  variableNames : Option (List String)
  envSelector : Option String
  debug : Bool
  validate : Option (Env → Option ε)

/-- Model of `getCurrentEnvironment` from `src/index.ts`:
`process.env[envSelector] || process.env.NODE_ENV || 'production'`. -/
def getCurrentEnvironment (penv : Env) (envSelector : String) : String :=
  orElseStr (penv envSelector) (orElseStr (penv "NODE_ENV") "production")

/-- One iteration of the `envConfig.vars` loop in `src/index.ts`
`resolveRuntimeEnv`: if `process.env["RUNTIME_" + key]` is truthy the
override is copied, otherwise the configured `value` is assigned
unconditionally. Reads the original process env `penv`, writes `acc`. -/
def applyVarEntry (penv : Env) (acc : Env) (k v : String) : Env :=
  match penv ("RUNTIME_" ++ k) with
  | some s => if s = "" then setVar acc k v else setVar acc k s
  | none => setVar acc k v

/-- One iteration of the `variables` loop in `src/index.ts`
`resolveRuntimeEnv`: copy `RUNTIME_<name>` when truthy, else do nothing. -/
def applyExtraVar (penv : Env) (acc : Env) (n : String) : Env :=
  match penv ("RUNTIME_" ++ n) with
  | some s => if s = "" then acc else setVar acc n s
  | none => acc

/-- The pure part of `resolveRuntimeEnv` in the active-environment branch:
start from a copy of `process.env`, run the `vars` loop, then the
`variables` loop. -/
def resolveRuntimeEnvCore (penv : Env) (ec : EnvironmentConfig)
    (vs : List String) : Env :=
  vs.foldl (fun acc n => applyExtraVar penv acc n)
    (ec.vars.foldl (fun acc kv => applyVarEntry penv acc kv.1 kv.2) penv)

/-- Model of `resolveRuntimeEnv` from `src/index.ts`.  Early-returns `process.env`
when the selected environment has no entry (before validation); otherwise
computes the resolved mapping and runs the validator, rethrowing its
condition (`Except.error`) on failure. -/
def resolveRuntimeEnv {ε : Type} (c : RuntimeEnvConfig ε) (penv : Env) :
    Except ε Env :=
  match lookupEnv (c.environments.getD DEFAULT_ENVIRONMENTS)
      (getCurrentEnvironment penv (c.envSelector.getD "APP_ENV")) with
  | none => Except.ok penv
  | some ec =>
    match c.validate with
    | none => Except.ok (resolveRuntimeEnvCore penv ec (c.variableNames.getD []))
    | some f =>
      match f (resolveRuntimeEnvCore penv ec (c.variableNames.getD [])) with
      | none => Except.ok (resolveRuntimeEnvCore penv ec (c.variableNames.getD []))
      | some e => Except.error e

/-- Model of `patchProcessEnv` from `src/index.ts`: resolve, then write every key
with a defined value back into `process.env`.  The returned pair is the
final process environment together with the propagated condition (the
write loop runs only after resolution returned, so on a thrown validation
condition the process environment is the untouched input). -/
def patchProcessEnv {ε : Type} (c : RuntimeEnvConfig ε) (penv : Env) :
    Env × Option ε :=
  match resolveRuntimeEnv c penv with
  | Except.ok r => (fun k => match r k with | some v => some v | none => penv k, none)
  | Except.error e => (penv, some e)

/-- The governed keys of a resolution: the active environment's `vars` keys
(empty when the selected name has no entry) together with `config.variables`. -/
def governedKeys {ε : Type} (c : RuntimeEnvConfig ε) (penv : Env) : List String :=
  (match lookupEnv (c.environments.getD DEFAULT_ENVIRONMENTS)
      (getCurrentEnvironment penv (c.envSelector.getD "APP_ENV")) with
   | none => []
   | some ec => ec.vars.map Prod.fst) ++ c.variableNames.getD []

/-! ## The `server.js` resolver (mutates `process.env` in place) -/

/-- The merged bootstrap configuration of `server.js` (its defaults always
populate every field, so none is optional here). -/
structure ServerConfig where
  environments : List (String × EnvironmentConfig)
  variableNames : List String
  envSelector : String
  debug : Bool

/-- One iteration of the `envConfig.vars` loop in `server.js`: reads the
override from the live (already partially mutated) environment `acc`;
assigns the configured `value` only when it is truthy (`else if (value)`). -/
def serverApplyVar (acc : Env) (k v : String) : Env :=
  match acc ("RUNTIME_" ++ k) with
  | some s =>
    if s = "" then (if v = "" then acc else setVar acc k v)
    else setVar acc k s
  | none => if v = "" then acc else setVar acc k v

/-- One iteration of the `config.variables` loop in `server.js`. -/
def serverApplyExtra (acc : Env) (n : String) : Env :=
  match acc ("RUNTIME_" ++ n) with
  | some s => if s = "" then acc else setVar acc n s
  | none => acc

/-- The two override loops of `server.js` `resolveRuntimeEnv`, in order,
threaded over the live process environment. -/
def serverResolveLoops (sc : ServerConfig) (penv : Env)
    (ec : EnvironmentConfig) : Env :=
  sc.variableNames.foldl (fun acc n => serverApplyExtra acc n)
    (ec.vars.foldl (fun acc kv => serverApplyVar acc kv.1 kv.2) penv)

/-- The NextAuth derived-key pass of `server.js`:
`if (process.env.NEXTAUTH_URL && !process.env.NEXTAUTH_URL_INTERNAL)` then
`NEXTAUTH_URL_INTERNAL = NEXTAUTH_URL`. -/
def nextAuthPass (e : Env) : Env :=
  match e "NEXTAUTH_URL" with
  | some s =>
    if s = "" then e
    else
      match e "NEXTAUTH_URL_INTERNAL" with
      | some t => if t = "" then setVar e "NEXTAUTH_URL_INTERNAL" s else e
      | none => setVar e "NEXTAUTH_URL_INTERNAL" s
  | none => e

/-- Model of `resolveRuntimeEnv` from `server.js`: select the environment, return
the environment untouched when it has no entry (early `return`), otherwise
run both override loops in place and finish with the NextAuth pass. -/
def serverResolveRuntimeEnv (sc : ServerConfig) (penv : Env) : Env :=
  match lookupEnv sc.environments
      (getCurrentEnvironment penv sc.envSelector) with
  | none => penv
  | some ec => nextAuthPass (serverResolveLoops sc penv ec)

/-! ## Assignment-list semantics of the `index.ts` resolver loops -/

/-- The value the `vars` loop of `src/index.ts` assigns for an entry
`(k, v)`: the truthy `RUNTIME_` override if present, else the literal `v`. -/
def chooseVal (penv : Env) (k v : String) : String :=
  match penv ("RUNTIME_" ++ k) with
  | some s => if s = "" then v else s
  | none => v

/-- The sequence of `(key, value)` writes performed by the `vars` loop. -/
def varAssignments (penv : Env) (l : List (String × String)) :
    List (String × String) :=
  l.map (fun kv => (kv.1, chooseVal penv kv.1 kv.2))

/-- The sequence of writes performed by the `variables` loop. -/
def extraAssignments (penv : Env) (l : List String) :
    List (String × String) :=
  l.filterMap (fun n =>
    match penv ("RUNTIME_" ++ n) with
    | some s => if s = "" then none else some (n, s)
    | none => none)

/-- Replay a list of writes onto a base environment. -/
def applyAssignments (base : Env) (l : List (String × String)) : Env :=
  l.foldl (fun a kv => setVar a kv.1 kv.2) base

/-- The last value written to key `k` by a list of writes, if any. -/
def lastWrite (l : List (String × String)) (k : String) : Option String :=
  l.foldl (fun acc kv => if kv.1 = k then some kv.2 else acc) none

/-- The successful-resolution result as a total function: what
`resolveRuntimeEnv` returns whenever the validator does not throw. -/
def resolvePure {ε : Type} (c : RuntimeEnvConfig ε) (penv : Env) : Env :=
  match lookupEnv (c.environments.getD DEFAULT_ENVIRONMENTS)
      (getCurrentEnvironment penv (c.envSelector.getD "APP_ENV")) with
  | none => penv
  | some ec => resolveRuntimeEnvCore penv ec (c.variableNames.getD [])

/-! ## Concrete instances used by witnesses and counterexamples -/

/-- An environment with a single configured variable whose value is the
empty string. -/
def ecEmptyVal : EnvironmentConfig := ⟨[("X", "")], none⟩

/-- Config whose production environment sets `X` to the empty string. -/
def cEmptyVal : RuntimeEnvConfig Unit :=
  ⟨some [("production", ecEmptyVal)], none, none, false, none⟩

/-- Process env where `X` has a pre-existing value. -/
def pKeep : Env := fun k => if k = "X" then some "keep" else none

/-- The resolved mapping of `cEmptyVal` over `pKeep`. -/
def rEmptyVal : Env := resolveRuntimeEnvCore pKeep ecEmptyVal []

/-- Production environment configuring `URL`. -/
def ecUrl : EnvironmentConfig := ⟨[("URL", "https://prod")], none⟩

/-- Config with one production environment configuring `URL`. -/
def cUrl : RuntimeEnvConfig Unit :=
  ⟨some [("production", ecUrl)], none, none, false, none⟩

/-- Process env selecting production, with a runtime override for `URL`. -/
def pOverride : Env := fun k =>
  if k = "APP_ENV" then some "production"
  else if k = "RUNTIME_URL" then some "https://custom" else none

/-- The resolved mapping of `cUrl` over `pOverride`. -/
def rOverride : Env := resolveRuntimeEnvCore pOverride ecUrl []

/-- Config with an empty environments table: every lookup misses. -/
def cNoEnvs : RuntimeEnvConfig Unit := ⟨some [], none, none, false, none⟩

/-- A one-variable process environment. -/
def pOneVar : Env := fun k => if k = "A" then some "x" else none

/-- Server config knowing only `production`. -/
def scProdOnly : ServerConfig := ⟨[("production", ⟨[], none⟩)], [], "APP_ENV", false⟩

/-- Process env selecting the unknown environment `staging`. -/
def pStaging : Env := fun k => if k = "APP_ENV" then some "staging" else none

/-- A validator that throws the message `URL missing` when `URL` is absent. -/
def vUrlRequired : Env → Option String := fun env =>
  match env "URL" with
  | none => some "URL missing"
  | some _ => none

/-- Config whose validator requires `URL`. -/
def cValidated : RuntimeEnvConfig String :=
  ⟨some [("production", ⟨[], none⟩)], none, none, false, some vUrlRequired⟩

/-- The everywhere-absent process environment. -/
def pEnvEmpty : Env := fun _ => none

/-- Config whose production `vars` writes a `RUNTIME_`-prefixed key before
the key it governs — the non-idempotence counterexample. -/
def cSelfOverride : RuntimeEnvConfig Unit :=
  ⟨some [("production", ⟨[("RUNTIME_X", "1"), ("X", "0")], none⟩)],
   none, none, false, none⟩

/-- Server config whose production environment sets `NEXTAUTH_URL`. -/
def scNextAuth : ServerConfig :=
  ⟨[("production", ⟨[("NEXTAUTH_URL", "https://app.example.com")], none⟩)],
   [], "APP_ENV", false⟩

/-- Server config knowing only `production`, with `NEXTAUTH_URL` in the
process env but an unrecognized selected environment. -/
def pStagingUrl : Env := fun k =>
  if k = "APP_ENV" then some "staging"
  else if k = "NEXTAUTH_URL" then some "https://app.example.com" else none

/-- Config with an extra runtime-configurable variable `URL`. -/
def cExtraVar : RuntimeEnvConfig Unit :=
  ⟨some [("production", ⟨[], none⟩)], some ["URL"], none, false, none⟩

/-- Process env with only the `RUNTIME_URL` override set. -/
def pRuntimeUrl : Env :=
  fun k => if k = "RUNTIME_URL" then some "https://custom" else none

/-- The resolved mapping of `cExtraVar` over `pRuntimeUrl`. -/
def rExtraVar : Env := resolveRuntimeEnvCore pRuntimeUrl ⟨[], none⟩ ["URL"]

/-- The all-defaults configuration: every optional field absent. -/
def emptyRuntimeEnvConfig : RuntimeEnvConfig Unit :=
  ⟨none, none, none, false, none⟩

lemma foldl_write_eq (k : String) (l : List (String × String)) :
    ∀ i : Option String,
      l.foldl (fun acc kv => if kv.1 = k then some kv.2 else acc) i
        = match l.foldl (fun acc kv => if kv.1 = k then some kv.2 else acc) none with
          | some v => some v
          | none => i := by
  induction l with
  | nil => intro i; rfl
  | cons a t ih =>
    intro i
    simp only [List.foldl_cons]
    rw [ih (if a.1 = k then some a.2 else i),
      ih (if a.1 = k then some a.2 else none)]
    cases t.foldl (fun acc kv => if kv.1 = k then some kv.2 else acc) none with
    | some v => rfl
    | none => by_cases hk : a.1 = k <;> simp [hk]

lemma lastWrite_cons (a : String × String) (t : List (String × String))
    (k : String) :
    lastWrite (a :: t) k
      = match lastWrite t k with
        | some v => some v
        | none => if a.1 = k then some a.2 else none := by
  simp only [lastWrite, List.foldl_cons]
  exact foldl_write_eq k t (if a.1 = k then some a.2 else none)

lemma applyAssignments_apply (l : List (String × String)) :
    ∀ (base : Env) (k : String),
      applyAssignments base l k
        = match lastWrite l k with
          | some v => some v
          | none => base k := by
  induction l with
  | nil => intro base k; rfl
  | cons a t ih =>
    intro base k
    simp only [applyAssignments, List.foldl_cons] at *
    rw [ih (setVar base a.1 a.2) k, lastWrite_cons]
    cases lastWrite t k with
    | some v => rfl
    | none =>
      by_cases hk : a.1 = k
      · subst hk; simp [setVar]
      · have hk' : ¬(k = a.1) := fun h => hk h.symm
        simp [setVar, hk, hk']

lemma applyAssignments_append (base : Env) (l1 l2 : List (String × String)) :
    applyAssignments base (l1 ++ l2)
      = applyAssignments (applyAssignments base l1) l2 := by
  simp [applyAssignments, List.foldl_append]

lemma applyVarEntry_eq (penv acc : Env) (k v : String) :
    applyVarEntry penv acc k v = setVar acc k (chooseVal penv k v) := by
  unfold applyVarEntry chooseVal
  cases penv ("RUNTIME_" ++ k) with
  | none => rfl
  | some s => by_cases h : s = "" <;> simp [h]

lemma foldl_applyVarEntry (penv : Env) (l : List (String × String)) :
    ∀ acc : Env,
      l.foldl (fun a kv => applyVarEntry penv a kv.1 kv.2) acc
        = applyAssignments acc (varAssignments penv l) := by
  induction l with
  | nil => intro acc; rfl
  | cons a t ih =>
    intro acc
    simp only [List.foldl_cons, varAssignments, List.map_cons,
      applyAssignments] at *
    rw [applyVarEntry_eq]
    exact ih _

lemma foldl_applyExtraVar (penv : Env) (l : List String) :
    ∀ acc : Env,
      l.foldl (fun a n => applyExtraVar penv a n) acc
        = applyAssignments acc (extraAssignments penv l) := by
  induction l with
  | nil => intro acc; rfl
  | cons n t ih =>
    intro acc
    simp only [List.foldl_cons, extraAssignments, List.filterMap_cons] at *
    unfold applyExtraVar
    cases hp : penv ("RUNTIME_" ++ n) with
    | none => simpa using ih acc
    | some s =>
      by_cases hs : s = ""
      · simpa [hs] using ih acc
      · simpa [hs, applyAssignments] using ih (setVar acc n s)

lemma resolveRuntimeEnvCore_eq (penv : Env) (ec : EnvironmentConfig)
    (vs : List String) :
    resolveRuntimeEnvCore penv ec vs
      = applyAssignments penv
          (varAssignments penv ec.vars ++ extraAssignments penv vs) := by
  unfold resolveRuntimeEnvCore
  rw [foldl_applyVarEntry, foldl_applyExtraVar, applyAssignments_append]

lemma resolveRuntimeEnvCore_apply (penv : Env) (ec : EnvironmentConfig)
    (vs : List String) (k : String) :
    resolveRuntimeEnvCore penv ec vs k
      = match lastWrite
            (varAssignments penv ec.vars ++ extraAssignments penv vs) k with
        | some v => some v
        | none => penv k := by
  rw [resolveRuntimeEnvCore_eq, applyAssignments_apply]

/-! ## Properties of `lastWrite` and the assignment lists -/

lemma lastWrite_mem {l : List (String × String)} {k v : String}
    (h : lastWrite l k = some v) : (k, v) ∈ l := by
  induction l with
  | nil => cases h
  | cons a t ih =>
    rw [lastWrite_cons] at h
    cases ht : lastWrite t k with
    | some w =>
      rw [ht] at h
      cases h
      exact List.mem_cons_of_mem _ (ih ht)
    | none =>
      rw [ht] at h
      by_cases hk : a.1 = k
      · rw [if_pos hk] at h
        cases h
        subst hk
        exact List.mem_cons_self _ _
      · rw [if_neg hk] at h; cases h

lemma lastWrite_ne_none_of_mem {l : List (String × String)} {k v : String}
    (h : (k, v) ∈ l) : lastWrite l k ≠ none := by
  induction l with
  | nil => cases h
  | cons a t ih =>
    rw [lastWrite_cons]
    rcases List.mem_cons.mp h with h1 | h1
    · cases ht : lastWrite t k with
      | some w => simp
      | none => subst h1; simp
    · cases ht : lastWrite t k with
      | some w => simp
      | none => exact absurd ht (ih h1)

lemma lastWrite_none_of_not_mem {l : List (String × String)} {k : String}
    (h : k ∉ l.map Prod.fst) : lastWrite l k = none := by
  induction l with
  | nil => rfl
  | cons a t ih =>
    rw [lastWrite_cons]
    simp only [List.map_cons, List.mem_cons, not_or] at h
    rw [ih h.2, if_neg (fun he => h.1 he.symm)]

lemma lastWrite_eq_some {l : List (String × String)} {k s : String}
    (hk : ∃ v, (k, v) ∈ l) (hall : ∀ w, (k, w) ∈ l → w = s) :
    lastWrite l k = some s := by
  cases h : lastWrite l k with
  | none =>
    rcases hk with ⟨v, hv⟩
    exact absurd h (lastWrite_ne_none_of_mem hv)
  | some w => rw [hall w (lastWrite_mem h)]

lemma nodupKeys_value_eq {l : List (String × String)} {k v w : String}
    (hnd : (l.map Prod.fst).Nodup) (h1 : (k, v) ∈ l) (h2 : (k, w) ∈ l) :
    v = w := by
  induction l with
  | nil => cases h1
  | cons a t ih =>
    simp only [List.map_cons, List.nodup_cons] at hnd
    rcases List.mem_cons.mp h1 with e1 | e1 <;>
      rcases List.mem_cons.mp h2 with e2 | e2
    · rw [← e1] at e2; exact (Prod.mk.injEq _ _ _ _ ▸ e2).2.symm
    · exfalso
      apply hnd.1
      rw [← e1]
      exact List.mem_map.mpr ⟨(k, w), e2, rfl⟩
    · exfalso
      apply hnd.1
      rw [← e2]
      exact List.mem_map.mpr ⟨(k, v), e1, rfl⟩
    · exact ih hnd.2 e1 e2

lemma varAssignments_mem {penv : Env} {l : List (String × String)}
    {k v : String} (h : (k, v) ∈ l) :
    (k, chooseVal penv k v) ∈ varAssignments penv l :=
  List.mem_map.mpr ⟨(k, v), h, rfl⟩

lemma mem_varAssignments {penv : Env} {l : List (String × String)}
    {k w : String} (h : (k, w) ∈ varAssignments penv l) :
    ∃ v, (k, v) ∈ l ∧ w = chooseVal penv k v := by
  rcases List.mem_map.mp h with ⟨⟨k1, v1⟩, hkv, heq⟩
  injection heq with h1 h2
  subst h1
  subst h2
  exact ⟨v1, hkv, rfl⟩

lemma mem_extraAssignments {penv : Env} {l : List String} {k w : String}
    (h : (k, w) ∈ extraAssignments penv l) :
    k ∈ l ∧ penv ("RUNTIME_" ++ k) = some w ∧ w ≠ "" := by
  rcases List.mem_filterMap.mp h with ⟨n, hn, hf⟩
  cases hp : penv ("RUNTIME_" ++ n) with
  | none => rw [hp] at hf; cases hf
  | some s =>
    rw [hp] at hf
    by_cases hs : s = ""
    · simp [hs] at hf
    · simp only [if_neg hs] at hf
      injection hf with h1
      injection h1 with h2 h3
      subst h2
      subst h3
      exact ⟨hn, hp, hs⟩

lemma extraAssignments_mem {penv : Env} {l : List String} {n s : String}
    (hn : n ∈ l) (hp : penv ("RUNTIME_" ++ n) = some s) (hs : s ≠ "") :
    (n, s) ∈ extraAssignments penv l :=
  List.mem_filterMap.mpr ⟨n, hn, by rw [hp]; simp [hs]⟩

lemma varAssignments_keys (penv : Env) (l : List (String × String)) :
    (varAssignments penv l).map Prod.fst = l.map Prod.fst := by
  simp [varAssignments, List.map_map, Function.comp]

/-! ## Unfolding lemmas for `resolveRuntimeEnv` and `patchProcessEnv` -/

lemma truthyB_none_eq : truthyB none = false := rfl

lemma truthyB_some_iff {s : String} : truthyB (some s) = true ↔ s ≠ "" := by
  simp [truthyB]

lemma truthyB_false_cases {o : Option String} (h : truthyB o = false) :
    o = none ∨ o = some "" := by
  cases o with
  | none => exact Or.inl rfl
  | some s =>
    right
    simp only [truthyB] at h
    simp only [Bool.not_eq_eq_eq_not, Bool.not_false, beq_iff_eq] at h
    rw [h]

lemma truthyB_true_elim {o : Option String} (h : truthyB o = true) :
    ∃ s, o = some s ∧ s ≠ "" := by
  cases o with
  | none => cases h
  | some s => exact ⟨s, rfl, truthyB_some_iff.mp h⟩

lemma chooseVal_of_falsy {penv : Env} {k : String} (v : String)
    (h : truthyB (penv ("RUNTIME_" ++ k)) = false) :
    chooseVal penv k v = v := by
  unfold chooseVal
  rcases truthyB_false_cases h with h1 | h1 <;> simp [h1]

lemma chooseVal_of_truthy {penv : Env} {k s : String} (v : String)
    (h1 : penv ("RUNTIME_" ++ k) = some s) (h2 : s ≠ "") :
    chooseVal penv k v = s := by
  unfold chooseVal
  rw [h1]
  simp [h2]

lemma resolveRuntimeEnv_lookup_none {ε : Type} {c : RuntimeEnvConfig ε}
    {penv : Env}
    (h : lookupEnv (c.environments.getD DEFAULT_ENVIRONMENTS)
        (getCurrentEnvironment penv (c.envSelector.getD "APP_ENV")) = none) :
    resolveRuntimeEnv c penv = Except.ok penv := by
  unfold resolveRuntimeEnv
  rw [h]

lemma resolveRuntimeEnv_lookup_some {ε : Type} {c : RuntimeEnvConfig ε}
    {penv : Env} {ec : EnvironmentConfig} {r : Env}
    (h : lookupEnv (c.environments.getD DEFAULT_ENVIRONMENTS)
        (getCurrentEnvironment penv (c.envSelector.getD "APP_ENV")) = some ec)
    (hok : resolveRuntimeEnv c penv = Except.ok r) :
    r = resolveRuntimeEnvCore penv ec (c.variableNames.getD []) := by
  unfold resolveRuntimeEnv at hok
  rw [h] at hok
  dsimp only at hok
  cases hv : c.validate with
  | none =>
    rw [hv] at hok
    dsimp only at hok
    injection hok with h1
    exact h1.symm
  | some f =>
    rw [hv] at hok
    dsimp only at hok
    cases hf : f (resolveRuntimeEnvCore penv ec (c.variableNames.getD [])) with
    | none =>
      rw [hf] at hok
      injection hok with h1
      exact h1.symm
    | some e =>
      rw [hf] at hok
      cases hok

lemma resolveRuntimeEnv_validate_error {ε : Type} {c : RuntimeEnvConfig ε}
    {penv : Env} {ec : EnvironmentConfig} {f : Env → Option ε} {e : ε}
    (hE : lookupEnv (c.environments.getD DEFAULT_ENVIRONMENTS)
        (getCurrentEnvironment penv (c.envSelector.getD "APP_ENV")) = some ec)
    (hv : c.validate = some f)
    (hf : f (resolveRuntimeEnvCore penv ec (c.variableNames.getD []))
        = some e) :
    resolveRuntimeEnv c penv = Except.error e := by
  unfold resolveRuntimeEnv
  rw [hE]
  dsimp only
  rw [hv]
  dsimp only
  rw [hf]

lemma resolveRuntimeEnv_no_throw {ε : Type} {c : RuntimeEnvConfig ε}
    {penv : Env}
    (hval : ∀ (f : Env → Option ε) (x : Env), c.validate = some f → f x = none) :
    resolveRuntimeEnv c penv = Except.ok (resolvePure c penv) := by
  unfold resolveRuntimeEnv resolvePure
  cases lookupEnv (c.environments.getD DEFAULT_ENVIRONMENTS)
      (getCurrentEnvironment penv (c.envSelector.getD "APP_ENV")) with
  | none => rfl
  | some ec =>
    cases hv : c.validate with
    | none => rfl
    | some f =>
      dsimp only
      rw [hval f _ hv]

lemma resolvePure_apply_none {ε : Type} {c : RuntimeEnvConfig ε} {penv : Env}
    {k : String} (h : resolvePure c penv k = none) : penv k = none := by
  unfold resolvePure at h
  cases hL : lookupEnv (c.environments.getD DEFAULT_ENVIRONMENTS)
      (getCurrentEnvironment penv (c.envSelector.getD "APP_ENV")) with
  | none => rw [hL] at h; exact h
  | some ec =>
    rw [hL] at h
    dsimp only at h
    rw [resolveRuntimeEnvCore_apply] at h
    cases hlw : lastWrite (varAssignments penv ec.vars
        ++ extraAssignments penv (c.variableNames.getD [])) k with
    | some v => rw [hlw] at h; cases h
    | none => rw [hlw] at h; exact h

lemma patchProcessEnv_fst_no_throw {ε : Type} {c : RuntimeEnvConfig ε}
    {penv : Env}
    (hval : ∀ (f : Env → Option ε) (x : Env), c.validate = some f → f x = none)
    (k : String) :
    (patchProcessEnv c penv).1 k = resolvePure c penv k := by
  unfold patchProcessEnv
  rw [resolveRuntimeEnv_no_throw hval]
  dsimp only
  cases hr : resolvePure c penv k with
  | some v => simp [hr]
  | none => exact resolvePure_apply_none hr

lemma patchProcessEnv_snd_no_throw {ε : Type} {c : RuntimeEnvConfig ε}
    {penv : Env}
    (hval : ∀ (f : Env → Option ε) (x : Env), c.validate = some f → f x = none) :
    (patchProcessEnv c penv).2 = none := by
  unfold patchProcessEnv
  rw [resolveRuntimeEnv_no_throw hval]

/-! ## Congruence of the assignment lists in the ambient environment -/

lemma varAssignments_congr {p q : Env} {l : List (String × String)}
    (h : ∀ kv ∈ l, p ("RUNTIME_" ++ kv.1) = q ("RUNTIME_" ++ kv.1)) :
    varAssignments p l = varAssignments q l := by
  induction l with
  | nil => rfl
  | cons a t ih =>
    simp only [varAssignments, List.map_cons] at *
    have h1 : chooseVal p a.1 a.2 = chooseVal q a.1 a.2 := by
      unfold chooseVal
      rw [h a (List.mem_cons_self a t)]
    rw [h1, ih (fun kv hkv => h kv (List.mem_cons_of_mem a hkv))]

lemma extraAssignments_congr {p q : Env} {l : List String}
    (h : ∀ n ∈ l, p ("RUNTIME_" ++ n) = q ("RUNTIME_" ++ n)) :
    extraAssignments p l = extraAssignments q l := by
  induction l with
  | nil => rfl
  | cons n t ih =>
    simp only [extraAssignments, List.filterMap_cons] at *
    rw [h n (List.mem_cons_self n t),
      ih (fun m hm => h m (List.mem_cons_of_mem n hm))]

lemma assignment_keys_sub {penv : Env} {ec : EnvironmentConfig}
    {vs : List String} {k : String}
    (h : k ∈ (varAssignments penv ec.vars
        ++ extraAssignments penv vs).map Prod.fst) :
    k ∈ ec.vars.map Prod.fst ++ vs := by
  rw [List.map_append, varAssignments_keys] at h
  rcases List.mem_append.mp h with h1 | h2
  · exact List.mem_append_left _ h1
  · rcases List.mem_map.mp h2 with ⟨⟨k1, w⟩, hkw, hfst⟩
    have h3 : k1 = k := hfst
    subst h3
    exact List.mem_append_right _ (mem_extraAssignments hkw).1

lemma default_env_vars {name : String} {ec : EnvironmentConfig}
    (h : lookupEnv DEFAULT_ENVIRONMENTS name = some ec) : ec.vars = [] := by
  unfold lookupEnv at h
  rcases Option.map_eq_some'.mp h with ⟨pr, hfind, hsnd⟩
  have hm := List.mem_of_find?_eq_some hfind
  subst hsnd
  unfold DEFAULT_ENVIRONMENTS at hm
  simp only [List.mem_cons, List.not_mem_nil, or_false] at hm
  rcases hm with rfl | rfl | rfl | rfl <;> rfl

/-! ## Claim theorems -/

/-- C5: `getCurrentEnvironment` returns the selector variable's value when
it is present and non-empty, otherwise `NODE_ENV`'s value when present and
non-empty, otherwise the literal `"production"`; it is a total function, so
no error is ever raised. -/
theorem getCurrentEnvironment_spec (penv : Env) (sel : String) :
    getCurrentEnvironment penv sel
      = if truthyB (penv sel) then (penv sel).getD ""
        else if truthyB (penv "NODE_ENV") then (penv "NODE_ENV").getD ""
        else "production" := by
  unfold getCurrentEnvironment orElseStr
  cases hsel : penv sel with
  | none =>
    cases hne : penv "NODE_ENV" with
    | none => simp [truthyB]
    | some t => by_cases ht : t = "" <;> simp [truthyB, ht]
  | some s =>
    by_cases hs : s = ""
    · cases hne : penv "NODE_ENV" with
      | none => simp [truthyB, hs]
      | some t => by_cases ht : t = "" <;> simp [truthyB, hs, ht]
    · simp [truthyB, hs]

/-- C3: when the selected environment name has no entry in the effective
environments table, resolution raises no error and returns a mapping equal
to the original process environment — both for the library resolver
(`resolveRuntimeEnv` of `src/index.ts`) and for the `server.js` resolver. -/
theorem resolve_unknown_env_identity {ε : Type} (c : RuntimeEnvConfig ε)
    (sc : ServerConfig) (penv qenv : Env)
    (hL : lookupEnv (c.environments.getD DEFAULT_ENVIRONMENTS)
        (getCurrentEnvironment penv (c.envSelector.getD "APP_ENV")) = none)
    (hLs : lookupEnv sc.environments
        (getCurrentEnvironment qenv sc.envSelector) = none) :
    resolveRuntimeEnv c penv = Except.ok penv
      ∧ serverResolveRuntimeEnv sc qenv = qenv := by
  refine ⟨resolveRuntimeEnv_lookup_none hL, ?_⟩
  unfold serverResolveRuntimeEnv
  rw [hLs]

/-- Witness for C3 at a concrete config and environment. -/
theorem resolve_unknown_env_identity_witness :
    resolveRuntimeEnv cNoEnvs pOneVar = Except.ok pOneVar
      ∧ serverResolveRuntimeEnv scProdOnly pStaging = pStaging :=
  resolve_unknown_env_identity cNoEnvs scProdOnly pOneVar pStaging rfl rfl

/-- C4: if the validation callback throws on the resolved mapping,
`resolveRuntimeEnv` propagates that same condition to its caller, and
`patchProcessEnv` leaves the process environment exactly unchanged (no
partial mapping is written). -/
theorem resolve_validation_failure_atomic {ε : Type} (c : RuntimeEnvConfig ε)
    (penv : Env) (ec : EnvironmentConfig) (f : Env → Option ε) (e : ε)
    (hE : lookupEnv (c.environments.getD DEFAULT_ENVIRONMENTS)
        (getCurrentEnvironment penv (c.envSelector.getD "APP_ENV")) = some ec)
    (hv : c.validate = some f)
    (hf : f (resolveRuntimeEnvCore penv ec (c.variableNames.getD []))
        = some e) :
    resolveRuntimeEnv c penv = Except.error e
      ∧ (patchProcessEnv c penv).2 = some e
      ∧ ∀ k, (patchProcessEnv c penv).1 k = penv k := by
  have hr := resolveRuntimeEnv_validate_error hE hv hf
  refine ⟨hr, ?_, ?_⟩
  · unfold patchProcessEnv
    rw [hr]
  · intro k
    unfold patchProcessEnv
    rw [hr]

/-- Witness for C4: a validator that throws when `URL` is absent, applied
to an environment lacking `URL`. -/
theorem resolve_validation_failure_atomic_witness :
    resolveRuntimeEnv cValidated pEnvEmpty = Except.error "URL missing"
      ∧ (patchProcessEnv cValidated pEnvEmpty).2 = some "URL missing"
      ∧ ∀ k, (patchProcessEnv cValidated pEnvEmpty).1 k = pEnvEmpty k :=
  resolve_validation_failure_atomic cValidated pEnvEmpty ⟨[], none⟩
    vUrlRequired "URL missing" rfl rfl rfl

/-- C2: for each `(key, value)` pair in the active environment's `vars`,
when the process environment holds a non-empty `RUNTIME_<key>`, the
effective mapping's value for `key` is that override, regardless of the
configured `value` and of any pre-existing process value. -/
theorem resolve_runtime_override_wins {ε : Type} (c : RuntimeEnvConfig ε)
    (penv : Env) (ec : EnvironmentConfig) (r : Env) (k v : String)
    (hE : lookupEnv (c.environments.getD DEFAULT_ENVIRONMENTS)
        (getCurrentEnvironment penv (c.envSelector.getD "APP_ENV")) = some ec)
    (hok : resolveRuntimeEnv c penv = Except.ok r)
    (hmem : (k, v) ∈ ec.vars)
    (ht : truthyB (penv ("RUNTIME_" ++ k)) = true) :
    r k = penv ("RUNTIME_" ++ k) := by
  rcases truthyB_true_elim ht with ⟨s, hs, hne⟩
  have hr := resolveRuntimeEnv_lookup_some hE hok
  subst hr
  rw [resolveRuntimeEnvCore_apply]
  have hlw : lastWrite (varAssignments penv ec.vars
      ++ extraAssignments penv (c.variableNames.getD [])) k = some s := by
    apply lastWrite_eq_some
    · exact ⟨chooseVal penv k v,
        List.mem_append_left _ (varAssignments_mem hmem)⟩
    · intro w hw
      rcases List.mem_append.mp hw with hw1 | hw2
      · rcases mem_varAssignments hw1 with ⟨v0, _, hweq⟩
        rw [hweq, chooseVal_of_truthy v0 hs hne]
      · have h2 := (mem_extraAssignments hw2).2.1
        rw [hs] at h2
        injection h2 with h3
        exact h3.symm
  rw [hlw, hs]

/-- Witness for C2: `APP_ENV=production`, `RUNTIME_URL=https://custom`,
configured value `https://prod` — the override wins. -/
theorem resolve_runtime_override_wins_witness :
    rOverride "URL" = pOverride ("RUNTIME_" ++ "URL") :=
  resolve_runtime_override_wins cUrl pOverride ecUrl rOverride "URL"
    "https://prod" rfl rfl (by decide) (by decide)

/-- C1 (amended): for each `(key, value)` pair in the active environment's
`vars` with no non-empty `RUNTIME_<key>` override present, the
`src/index.ts` resolver assigns the configured `value` unconditionally —
including the empty string, which then overwrites any pre-existing process
value instead of preserving it. -/
theorem resolve_no_override_sets_literal {ε : Type} (c : RuntimeEnvConfig ε)
    (penv : Env) (ec : EnvironmentConfig) (r : Env) (k v : String)
    (hE : lookupEnv (c.environments.getD DEFAULT_ENVIRONMENTS)
        (getCurrentEnvironment penv (c.envSelector.getD "APP_ENV")) = some ec)
    (hok : resolveRuntimeEnv c penv = Except.ok r)
    (hnd : (ec.vars.map Prod.fst).Nodup)
    (hmem : (k, v) ∈ ec.vars)
    (ht : truthyB (penv ("RUNTIME_" ++ k)) = false) :
    r k = some v := by
  have hr := resolveRuntimeEnv_lookup_some hE hok
  subst hr
  rw [resolveRuntimeEnvCore_apply]
  have hlw : lastWrite (varAssignments penv ec.vars
      ++ extraAssignments penv (c.variableNames.getD [])) k = some v := by
    apply lastWrite_eq_some
    · exact ⟨chooseVal penv k v,
        List.mem_append_left _ (varAssignments_mem hmem)⟩
    · intro w hw
      rcases List.mem_append.mp hw with hw1 | hw2
      · rcases mem_varAssignments hw1 with ⟨v0, hv0, hweq⟩
        rw [hweq, chooseVal_of_falsy v0 ht]
        exact nodupKeys_value_eq hnd hv0 hmem
      · exfalso
        rcases mem_extraAssignments hw2 with ⟨_, hp2, hne2⟩
        rw [hp2] at ht
        rcases truthyB_false_cases ht with h4 | h4
        · cases h4
        · injection h4 with h5
          exact hne2 h5
  rw [hlw]

/-- C1 counterexample: production's `vars` maps `X` to the empty string,
there is no `RUNTIME_X` override, and the process env already has
`X=keep`; the claim predicts the effective `X` keeps the value `keep`, but
the `src/index.ts` resolver returns the empty string for `X`. -/
theorem resolve_empty_value_overwrites :
    lookupEnv (cEmptyVal.environments.getD DEFAULT_ENVIRONMENTS)
        (getCurrentEnvironment pKeep (cEmptyVal.envSelector.getD "APP_ENV"))
      = some ecEmptyVal
      ∧ ("X", "") ∈ ecEmptyVal.vars
      ∧ truthyB (pKeep ("RUNTIME_" ++ "X")) = false
      ∧ pKeep "X" = some "keep"
      ∧ resolveRuntimeEnv cEmptyVal pKeep = Except.ok rEmptyVal
      ∧ rEmptyVal "X" = some ""
      ∧ rEmptyVal "X" ≠ pKeep "X" :=
  ⟨rfl, by decide, by decide, by decide, rfl, by decide, by decide⟩

/-- Witness for the amended C1 theorem at the concrete empty-value input. -/
theorem resolve_no_override_sets_literal_witness :
    rEmptyVal "X" = some "" :=
  resolve_no_override_sets_literal cEmptyVal pKeep ecEmptyVal rEmptyVal
    "X" "" rfl rfl (by decide) (by decide) (by decide)

/-- C8: the effective mapping returned by resolution keeps every key
present in the process environment, and every key that is neither in the
active environment's `vars` nor in `config.variables` keeps exactly its
original process value. -/
theorem resolve_frame_property {ε : Type} (c : RuntimeEnvConfig ε)
    (penv : Env) (r : Env)
    (hok : resolveRuntimeEnv c penv = Except.ok r) :
    (∀ k, (penv k).isSome = true → (r k).isSome = true)
      ∧ ∀ k, k ∉ governedKeys c penv → r k = penv k := by
  cases hL : lookupEnv (c.environments.getD DEFAULT_ENVIRONMENTS)
      (getCurrentEnvironment penv (c.envSelector.getD "APP_ENV")) with
  | none =>
    rw [resolveRuntimeEnv_lookup_none hL] at hok
    injection hok with h1
    subst h1
    exact ⟨fun k h => h, fun k _ => rfl⟩
  | some ec =>
    have hr := resolveRuntimeEnv_lookup_some hL hok
    subst hr
    constructor
    · intro k h
      rw [resolveRuntimeEnvCore_apply]
      cases hlw : lastWrite (varAssignments penv ec.vars
          ++ extraAssignments penv (c.variableNames.getD [])) k with
      | some v => rfl
      | none => exact h
    · intro k hk
      rw [resolveRuntimeEnvCore_apply]
      have hlw : lastWrite (varAssignments penv ec.vars
          ++ extraAssignments penv (c.variableNames.getD [])) k = none := by
        apply lastWrite_none_of_not_mem
        intro hmem
        apply hk
        unfold governedKeys
        rw [hL]
        dsimp only
        exact assignment_keys_sub hmem
      rw [hlw]

/-- Witness for C8 at the override scenario: pre-existing `APP_ENV` stays
present, and the ungoverned key `OTHER` is untouched. -/
theorem resolve_frame_property_witness :
    (rOverride "APP_ENV").isSome = true
      ∧ rOverride "OTHER" = pOverride "OTHER" := by
  have h := resolve_frame_property cUrl pOverride rOverride rfl
  exact ⟨h.1 "APP_ENV" (by decide), h.2 "OTHER" (by decide)⟩

/-- C9: for a name in `config.variables`: a non-empty `RUNTIME_<name>`
override is copied into the effective mapping; with no such override and
no entry for the name in the active environment's `vars`, the name keeps
exactly its (possibly absent) original process value. -/
theorem resolve_extra_variables_spec {ε : Type} (c : RuntimeEnvConfig ε)
    (penv : Env) (ec : EnvironmentConfig) (r : Env) (n : String)
    (hE : lookupEnv (c.environments.getD DEFAULT_ENVIRONMENTS)
        (getCurrentEnvironment penv (c.envSelector.getD "APP_ENV")) = some ec)
    (hok : resolveRuntimeEnv c penv = Except.ok r)
    (hn : n ∈ c.variableNames.getD []) :
    (∀ s, penv ("RUNTIME_" ++ n) = some s → s ≠ "" → r n = some s)
      ∧ (truthyB (penv ("RUNTIME_" ++ n)) = false →
          n ∉ ec.vars.map Prod.fst → r n = penv n) := by
  have hr := resolveRuntimeEnv_lookup_some hE hok
  subst hr
  constructor
  · intro s hp hs
    rw [resolveRuntimeEnvCore_apply]
    have hlw : lastWrite (varAssignments penv ec.vars
        ++ extraAssignments penv (c.variableNames.getD [])) n = some s := by
      apply lastWrite_eq_some
      · exact ⟨s, List.mem_append_right _ (extraAssignments_mem hn hp hs)⟩
      · intro w hw
        rcases List.mem_append.mp hw with hw1 | hw2
        · rcases mem_varAssignments hw1 with ⟨v0, _, hweq⟩
          rw [hweq, chooseVal_of_truthy v0 hp hs]
        · have h2 := (mem_extraAssignments hw2).2.1
          rw [hp] at h2
          injection h2 with h3
          exact h3.symm
    rw [hlw]
  · intro ht hnv
    rw [resolveRuntimeEnvCore_apply]
    have hlw : lastWrite (varAssignments penv ec.vars
        ++ extraAssignments penv (c.variableNames.getD [])) n = none := by
      apply lastWrite_none_of_not_mem
      intro hmem
      rw [List.map_append, varAssignments_keys] at hmem
      rcases List.mem_append.mp hmem with h1 | h2
      · exact hnv h1
      · rcases List.mem_map.mp h2 with ⟨⟨k1, w⟩, hkw, hfst⟩
        have h3 : k1 = n := hfst
        subst h3
        rcases mem_extraAssignments hkw with ⟨_, hp2, hne2⟩
        rw [hp2] at ht
        rcases truthyB_false_cases ht with h4 | h4
        · cases h4
        · injection h4 with h5
          exact hne2 h5
    rw [hlw]

/-- Witness for C9: `URL` in the extra list with `RUNTIME_URL` set. -/
theorem resolve_extra_variables_spec_witness :
    rExtraVar "URL" = some "https://custom" :=
  (resolve_extra_variables_spec cExtraVar pRuntimeUrl ⟨[], none⟩ rExtraVar
    "URL" rfl rfl (by decide)).1 "https://custom" (by decide) (by decide)

/-- C10: with the all-defaults configuration (environments defaulted to
`DEFAULT_ENVIRONMENTS` whose entries all have empty `vars`, empty extra
list, no validator), `patchProcessEnv` leaves a process environment with
no non-empty `RUNTIME_`-prefixed variables exactly unchanged, whatever
environment name is selected. -/
theorem patch_default_config_identity (penv : Env)
    (hro : ∀ k, truthyB (penv ("RUNTIME_" ++ k)) = false) :
    (patchProcessEnv emptyRuntimeEnvConfig penv).2 = none
      ∧ ∀ k, (patchProcessEnv emptyRuntimeEnvConfig penv).1 k = penv k := by
  have hval : ∀ (f : Env → Option Unit) (x : Env),
      emptyRuntimeEnvConfig.validate = some f → f x = none :=
    fun f x hf => Option.noConfusion hf
  refine ⟨patchProcessEnv_snd_no_throw hval, ?_⟩
  intro k
  rw [patchProcessEnv_fst_no_throw hval k]
  unfold resolvePure
  cases hL : lookupEnv
      (emptyRuntimeEnvConfig.environments.getD DEFAULT_ENVIRONMENTS)
      (getCurrentEnvironment penv
        (emptyRuntimeEnvConfig.envSelector.getD "APP_ENV")) with
  | none => rfl
  | some ec =>
    dsimp only
    have hv0 : ec.vars = [] := default_env_vars hL
    unfold resolveRuntimeEnvCore
    rw [hv0]
    rfl

/-- Witness for C10 at the empty process environment. -/
theorem patch_default_config_identity_witness :
    (patchProcessEnv emptyRuntimeEnvConfig pEnvEmpty).2 = none
      ∧ ∀ k, (patchProcessEnv emptyRuntimeEnvConfig pEnvEmpty).1 k
          = pEnvEmpty k :=
  patch_default_config_identity pEnvEmpty (fun k => rfl)

/-- C7: with an active environment entry, after the `server.js` override
loops complete the final NextAuth pass runs over the mutated environment:
when `NEXTAUTH_URL` is non-empty and `NEXTAUTH_URL_INTERNAL` is absent or
empty, the internal key is set equal to the primary value; when the
internal key already holds a non-empty value it is left unchanged. -/
theorem server_nextauth_derivation (sc : ServerConfig) (penv : Env)
    (ec : EnvironmentConfig)
    (hE : lookupEnv sc.environments
        (getCurrentEnvironment penv sc.envSelector) = some ec) :
    (∀ s, serverResolveLoops sc penv ec "NEXTAUTH_URL" = some s → s ≠ "" →
        truthyB (serverResolveLoops sc penv ec "NEXTAUTH_URL_INTERNAL")
          = false →
        serverResolveRuntimeEnv sc penv "NEXTAUTH_URL_INTERNAL" = some s)
      ∧ (truthyB (serverResolveLoops sc penv ec "NEXTAUTH_URL_INTERNAL")
            = true →
          serverResolveRuntimeEnv sc penv "NEXTAUTH_URL_INTERNAL"
            = serverResolveLoops sc penv ec "NEXTAUTH_URL_INTERNAL") := by
  unfold serverResolveRuntimeEnv
  rw [hE]
  dsimp only
  constructor
  · intro s hs hne hint
    unfold nextAuthPass
    rw [hs]
    dsimp only
    rw [if_neg hne]
    rcases truthyB_false_cases hint with h1 | h1 <;> rw [h1]
    · simp [setVar]
    · dsimp only
      rw [if_pos rfl]
      simp [setVar]
  · intro ht
    rcases truthyB_true_elim ht with ⟨t, hti, htne⟩
    unfold nextAuthPass
    cases hu : serverResolveLoops sc penv ec "NEXTAUTH_URL" with
    | none => rfl
    | some s =>
      dsimp only
      by_cases hs : s = ""
      · rw [if_pos hs]
      · rw [if_neg hs, hti]
        dsimp only
        rw [if_neg htne]
        exact hti

/-- Witness for C7: production sets `NEXTAUTH_URL`; no internal URL is
present, so the pass copies the primary value into it. -/
theorem server_nextauth_derivation_witness :
    serverResolveRuntimeEnv scNextAuth pEnvEmpty "NEXTAUTH_URL_INTERNAL"
      = some "https://app.example.com" :=
  (server_nextauth_derivation scNextAuth pEnvEmpty
      ⟨[("NEXTAUTH_URL", "https://app.example.com")], none⟩ rfl).1
    "https://app.example.com" (by decide) (by decide) (by decide)

/-- C6 (amended): applying `patchProcessEnv` twice is idempotent provided
the validator never throws, the first application does not change the
selected environment name, and it does not change any `RUNTIME_`-prefixed
variable of a governed key.  (Without the last two conditions the claim
fails, see the counterexample.) -/
theorem patch_idempotent_of_stable {ε : Type} (c : RuntimeEnvConfig ε)
    (penv : Env)
    (hval : ∀ (f : Env → Option ε) (x : Env), c.validate = some f → f x = none)
    (hsel : getCurrentEnvironment (patchProcessEnv c penv).1
        (c.envSelector.getD "APP_ENV")
      = getCurrentEnvironment penv (c.envSelector.getD "APP_ENV"))
    (hrt : ∀ k ∈ governedKeys c penv,
      (patchProcessEnv c penv).1 ("RUNTIME_" ++ k)
        = penv ("RUNTIME_" ++ k)) :
    (patchProcessEnv c penv).2 = none
      ∧ (patchProcessEnv c (patchProcessEnv c penv).1).2 = none
      ∧ ∀ k, (patchProcessEnv c (patchProcessEnv c penv).1).1 k
          = (patchProcessEnv c penv).1 k := by
  refine ⟨patchProcessEnv_snd_no_throw hval,
    patchProcessEnv_snd_no_throw hval, ?_⟩
  intro k
  rw [patchProcessEnv_fst_no_throw hval k]
  have hp1 : ∀ j, (patchProcessEnv c penv).1 j = resolvePure c penv j :=
    fun j => patchProcessEnv_fst_no_throw hval j
  unfold resolvePure
  rw [hsel]
  cases hL : lookupEnv (c.environments.getD DEFAULT_ENVIRONMENTS)
      (getCurrentEnvironment penv (c.envSelector.getD "APP_ENV")) with
  | none => rfl
  | some ec =>
    dsimp only
    have hp1c : ∀ j, (patchProcessEnv c penv).1 j
        = resolveRuntimeEnvCore penv ec (c.variableNames.getD []) j := by
      intro j
      rw [hp1 j]
      unfold resolvePure
      rw [hL]
    have hgov : governedKeys c penv
        = ec.vars.map Prod.fst ++ c.variableNames.getD [] := by
      unfold governedKeys
      rw [hL]
    have hva : varAssignments (patchProcessEnv c penv).1 ec.vars
        = varAssignments penv ec.vars := by
      apply varAssignments_congr
      intro kv hkv
      apply hrt
      rw [hgov]
      exact List.mem_append_left _ (List.mem_map.mpr ⟨kv, hkv, rfl⟩)
    have hea : extraAssignments (patchProcessEnv c penv).1
          (c.variableNames.getD [])
        = extraAssignments penv (c.variableNames.getD []) := by
      apply extraAssignments_congr
      intro n hn
      apply hrt
      rw [hgov]
      exact List.mem_append_right _ hn
    rw [resolveRuntimeEnvCore_apply, hva, hea]
    cases hlw : lastWrite (varAssignments penv ec.vars
        ++ extraAssignments penv (c.variableNames.getD [])) k with
    | none => rfl
    | some v =>
      rw [hp1c k, resolveRuntimeEnvCore_apply, hlw]

/-- C6 counterexample: production's `vars` writes `RUNTIME_X` before `X`
over the empty process environment; the first application yields `X=0`,
the second yields `X=1` — the second application changes the process
environment, so patching is not idempotent as claimed. -/
theorem patch_twice_changes_env :
    (patchProcessEnv cSelfOverride pEnvEmpty).1 "X" = some "0"
      ∧ (patchProcessEnv cSelfOverride
          (patchProcessEnv cSelfOverride pEnvEmpty).1).1 "X" = some "1" :=
  ⟨by decide, by decide⟩

/-- Witness for the amended C6 theorem at a stable configuration. -/
theorem patch_idempotent_of_stable_witness :
    (patchProcessEnv cUrl pEnvEmpty).2 = none
      ∧ (patchProcessEnv cUrl (patchProcessEnv cUrl pEnvEmpty).1).2 = none
      ∧ ∀ k, (patchProcessEnv cUrl (patchProcessEnv cUrl pEnvEmpty).1).1 k
          = (patchProcessEnv cUrl pEnvEmpty).1 k :=
  patch_idempotent_of_stable cUrl pEnvEmpty
    (fun f x hf => Option.noConfusion hf) (by decide) (by decide)
